import Mathlib

/-!
# Fault injector: shallow embedding of `src/fault_injector/fault_injector.cc`

The translation unit interposes `socket`, `recv` and `gethostbyname`.  Its state is
process-global: the function-local statics `first` (in `should_abort`) and `orig`
(in `socket`), plus the 48-bit state of the C library's `drand48` generator.

Calls into the C library and the operating system are modelled as follows.

* `srand48` / `drand48` follow POSIX: the state is a 48-bit integer `X`,
  `srand48 v` installs `X = ((v mod 2^32) << 16) | 0x330E`, and `drand48` replaces
  `X` by `(0x5DEECE66D * X + 0xB) mod 2^48` and returns the double `X / 2^48`.
  Every such value has at most 48 significant bits, so it is an exact double and
  the comparison `drand48() < crash_threshold` is an exact comparison of
  dyadic rationals (`Dyadic`).
* `time(NULL)`, `getpid()`, `dlsym(RTLD_NEXT, "socket")` and the call through a
  function pointer are read from a snapshot `Sys` of the environment of the call.
* `abort()` and a failing `assert` end the process; they are outcomes of a call.
* Every call reports the library calls it made as a list of `Event`s.
-/

namespace FaultInjector

/-! ## The `drand48` family (POSIX) -/

/-- Modulus of the linear congruential generator behind `drand48`. -/
def rand48_modulus : Nat := 2 ^ 48

/-- Multiplier of the linear congruential generator behind `drand48`. -/
def rand48_a : Nat := 0x5DEECE66D

/-- Increment of the linear congruential generator behind `drand48`. -/
def rand48_c : Nat := 0xB

/-- One iteration of the generator: `X := (a * X + c) mod 2^48`. -/
def rand48_next (x : Nat) : Nat := (rand48_a * x + rand48_c) % rand48_modulus

/-- State installed by `srand48(seedval)`, `seedval` given as the 64-bit pattern of the
`long` argument: the low 32 bits of the argument become the high 32 bits of the state
and the low 16 bits of the state are `0x330E`. -/
def srand48 (seedval : Nat) : Nat := ((seedval % 2 ^ 32) <<< 16) ||| 0x330E

/-- A non-negative binary floating-point value `num * 2^-exp`, the shape of every `double`
this translation unit compares. -/
structure Dyadic where
  num : Nat
  exp : Nat
deriving DecidableEq, Repr

/-- The rational number a dyadic value denotes. -/
def Dyadic.toRat (d : Dyadic) : ℚ := (d.num : ℚ) / (2 : ℚ) ^ d.exp

/-- The comparison `a < b` of two doubles, which is exact. -/
def Dyadic.blt : Dyadic → Dyadic → Bool
  | ⟨n1, e1⟩, ⟨n2, e2⟩ => decide (n1 * 2 ^ e2 < n2 * 2 ^ e1)

/-- Value returned by `drand48()` when the state after the iteration is `x`: the double
`x * 2^-48`, exact because `x` has at most 48 bits. -/
def drand48_value (x : Nat) : Dyadic := { num := x, exp := 48 }

/-! ## Constants and machine arithmetic of the translation unit -/

/-- The constant `const double crash_threshold = 0.325;`: the binary64 number nearest to
`0.325`, which is `0x14CCCCCCCCCCCD * 2^-54`. -/
def crash_threshold : Dyadic := { num := 0x14CCCCCCCCCCCD, exp := 54 }

/-- The expression `getpid()<<16` in 32-bit `int` arithmetic, as a 32-bit pattern. -/
def shl16_int (pid : Nat) : Nat := (pid * 2 ^ 16) % 2 ^ 32

/-- Conversion of a 32-bit `int` pattern to the 64-bit pattern of a `long` (sign extension). -/
def int_to_long (x : Nat) : Nat := if x < 2 ^ 31 then x else x + (2 ^ 64 - 2 ^ 32)

/-- The argument of `srand48` in `init`: `time(NULL) ^ (getpid()<<16)`, as a 64-bit pattern. -/
def seed_arg (time pid : Nat) : Nat := (time % 2 ^ 64) ^^^ int_to_long (shl16_int pid)

/-! ## Process state, environment, events -/

/-- The process-global state the translation unit reads and writes. -/
structure ProcState where
  /-- The static `first` of `should_abort`. -/
  first : Bool
  /-- The static `orig` of `socket`, a function pointer; `0` is the null pointer. -/
  orig : Nat
  /-- The 48-bit state of the `drand48` generator. -/
  xsubi : Nat
deriving DecidableEq, Repr

/-- State of a freshly started process: `first = true`, `orig = 0`, generator unseeded. -/
def ProcState.start : ProcState := { first := true, orig := 0, xsubi := 0 }

/-- The seed-initialized flag of the specification: the negation of `first`. -/
def ProcState.seeded (s : ProcState) : Bool := !s.first

/-- What the environment answers during one call. -/
structure Sys where
  /-- Value of `time(NULL)` (pattern of a 64-bit `time_t`). -/
  time : Nat
  /-- Value of `getpid()`. -/
  pid : Nat
  /-- Value of `dlsym(RTLD_NEXT, "socket")`; `0` when the symbol is not found. -/
  dlsym : Nat
  /-- Result of calling the function at the given address with three `int` arguments. -/
  invoke : Nat → Int → Int → Int → Int

/-- Library calls made by the translation unit, in program order. -/
inductive Event where
  | srand48 (seedval : Nat)
  | drand48
  | abort
  | dlsym
  | assert_fail
  | call (h : Nat) (domain type_ protocol : Int)
deriving DecidableEq, Repr

/-- How a call ends. -/
inductive Outcome (α : Type) where
  | returned (v : α)
  | aborted
  | assert_failed
deriving DecidableEq, Repr

/-- The `struct hostent` of `<netdb.h>`. -/
structure hostent where
  h_name : String
  h_aliases : List String
  h_addrtype : Int
  h_length : Int
  h_addr_list : List (List Nat)
deriving DecidableEq, Repr

/-! ## The functions of the translation unit -/

/-- `static void init()`: seeds the generator with `time(NULL) ^ (getpid()<<16)`.
The `clock_gettime` call fills a local that is never read. -/
def init (sys : Sys) (s : ProcState) : ProcState × List Event :=
  ({ s with xsubi := srand48 (seed_arg sys.time sys.pid) },
   [Event.srand48 (seed_arg sys.time sys.pid)])

/-- `static bool should_abort()`. -/
def should_abort (sys : Sys) (s : ProcState) : Bool × ProcState × List Event :=
  let r := if s.first then init sys { s with first := false } else (s, [])
  let x := rand48_next r.1.xsubi
  ((drand48_value x).blt crash_threshold, { r.1 with xsubi := x }, r.2 ++ [Event.drand48])

/-- `int socket(int domain, int type, int protocol)`; `assert` is the active macro of
`<assert.h>` (the file does not define `NDEBUG`). -/
def socket (sys : Sys) (domain type_ protocol : Int) (s : ProcState) :
    Outcome Int × ProcState × List Event :=
  let r := should_abort sys s
  if r.1 then (Outcome.aborted, r.2.1, r.2.2 ++ [Event.abort])
  else if r.2.1.orig = 0 then
    let h := sys.dlsym
    if h = 0 then
      (Outcome.assert_failed, { r.2.1 with orig := h }, r.2.2 ++ [Event.dlsym, Event.assert_fail])
    else
      (Outcome.returned (sys.invoke h domain type_ protocol), { r.2.1 with orig := h },
        r.2.2 ++ [Event.dlsym, Event.call h domain type_ protocol])
  else
    (Outcome.returned (sys.invoke r.2.1.orig domain type_ protocol), r.2.1,
      r.2.2 ++ [Event.call r.2.1.orig domain type_ protocol])

/-- `ssize_t recv(int s, void *buf, size_t len, int flags)`; `buf` is the content of the
caller's buffer. -/
def recv (_s : Int) (_buf : List Nat) (_len : Nat) (_flags : Int) (st : ProcState) :
    Outcome Int × ProcState × List Event :=
  (Outcome.returned 0, st, [])

/-- `struct hostent *gethostbyname(const char *name)`; `none` is the null pointer. -/
def gethostbyname (_name : String) (st : ProcState) :
    Outcome (Option hostent) × ProcState × List Event :=
  (Outcome.returned none, st, [])

/-! ## Sequences of calls within one process -/

/-- A call of one of the three interposed functions, with its arguments. -/
inductive Call where
  | socket (domain type_ protocol : Int)
  | recv (s : Int) (buf : List Nat) (len : Nat) (flags : Int)
  | gethostbyname (name : String)
deriving DecidableEq, Repr

/-- Whether a call is a call of `socket`, the only function asking for a fault decision. -/
def Call.isSocket : Call → Bool
  | Call.socket _ _ _ => true
  | _ => false

/-- Value handed back to the caller of an interposed function. -/
inductive Value where
  | int (v : Int)
  | host (h : Option hostent)
deriving DecidableEq, Repr

/-- Retags the value of an outcome. -/
def Outcome.map {α β : Type} (f : α → β) : Outcome α → Outcome β
  | Outcome.returned v => Outcome.returned (f v)
  | Outcome.aborted => Outcome.aborted
  | Outcome.assert_failed => Outcome.assert_failed

/-- Whether the call came back to its caller (the process is still running). -/
def Outcome.isReturned {α : Type} : Outcome α → Bool
  | Outcome.returned _ => true
  | _ => false

/-- Executes one call in the environment `sys`. -/
def step (sys : Sys) (c : Call) (s : ProcState) : Outcome Value × ProcState × List Event :=
  match c with
  | Call.socket d t p =>
    let r := socket sys d t p s
    (r.1.map Value.int, r.2.1, r.2.2)
  | Call.recv fd buf len flags =>
    let r := recv fd buf len flags s
    (r.1.map Value.int, r.2.1, r.2.2)
  | Call.gethostbyname name =>
    let r := gethostbyname name s
    (r.1.map Value.host, r.2.1, r.2.2)

/-- Result of running a sequence of calls: the events of every executed call, the state
reached, and whether the process is still running. -/
structure Trace where
  log : List (List Event)
  final : ProcState
  alive : Bool
deriving DecidableEq, Repr

/-- Runs the calls in order, each in its own environment, until the list is exhausted or a
call ends the process. -/
def run : List (Sys × Call) → ProcState → Trace
  | [], s => { log := [], final := s, alive := true }
  | (sys, c) :: rest, s =>
    let r := step sys c s
    if r.1.isReturned then
      let t := run rest r.2.1
      { t with log := r.2.2 :: t.log }
    else { log := [r.2.2], final := r.2.1, alive := false }

/-- Whether an event is a call through a function pointer. -/
def Event.isCall : Event → Bool
  | Event.call _ _ _ _ => true
  | _ => false

/-- Whether an event is a call of `srand48`. -/
def Event.isSeed : Event → Bool
  | Event.srand48 _ => true
  | _ => false

/-- Number of `srand48` calls recorded in a log. -/
def seedCount (log : List (List Event)) : Nat := (log.flatten.filter Event.isSeed).length

/-- Number of `dlsym` calls recorded in a log. -/
def dlsymCount (log : List (List Event)) : Nat := log.flatten.count Event.dlsym

/-- Whether the events of a call show that it took the pass-through path of `socket`: a
fault decision was drawn and the process was not aborted for it. -/
def reachedPassThrough (l : List Event) : Bool := l.contains Event.drand48 && !l.contains Event.abort

/-! ## Sequences of fault decisions -/

/-- Process state after `n` calls of `should_abort`, the `k`-th call (from 0) made in the
environment `env k`. -/
def state_after (env : Nat → Sys) (s : ProcState) : Nat → ProcState
  | 0 => s
  | n + 1 => (should_abort (env n) (state_after env s n)).2.1

/-- The fault decision of the `n`-th call (from 0) of `should_abort`. -/
def decision (env : Nat → Sys) (s : ProcState) (n : Nat) : Bool :=
  (should_abort (env n) (state_after env s n)).1

/-- Number of `true` decisions among the first `2^48` calls of `should_abort`. -/
def abortCount (env : Nat → Sys) (s : ProcState) : Nat :=
  ((Finset.range (2 ^ 48)).filter (fun n => decision env s n = true)).card

/-- Number of generator states from which a seeded process draws the decision `true`. -/
def abortStates (sys : Sys) (orig : Nat) : Nat :=
  ((Finset.range (2 ^ 48)).filter
    (fun x => (should_abort sys { first := false, orig := orig, xsubi := x }).1 = true)).card

/-- Number of generator states from which a call of `socket` by a seeded process aborts. -/
def socketAbortStates (sys : Sys) (domain type_ protocol : Int) (orig : Nat) : Nat :=
  ((Finset.range (2 ^ 48)).filter
    (fun x => (socket sys domain type_ protocol { first := false, orig := orig, xsubi := x }).1
      = Outcome.aborted)).card

/-- The generator itself as an affine map modulo `2^48`. -/
def affine48 (A C x : Nat) : Nat := (A * x + C) % 2 ^ 48

/-- Coefficients of the composition of an affine map modulo `2^48` with itself. -/
def affine48_sq (m : Nat × Nat) : Nat × Nat := ((m.1 * m.1) % 2 ^ 48, (m.1 * m.2 + m.2) % 2 ^ 48)

/-- A sample environment: the real `socket` lives at address 7 and answers the sum of its
address and arguments. -/
def sampleSys : Sys :=
  { time := 1700000000, pid := 4242, dlsym := 7,
    invoke := fun h d t p => (h : Int) + d + t + p }

/-- A sample environment in which `dlsym` does not find the real `socket`. -/
def sampleSysUnresolved : Sys :=
  { time := 1700000000, pid := 4242, dlsym := 0, invoke := fun _ _ _ _ => 0 }

/-- The generator state from which a process draws its first fault decision: the state
`init` installs when `first` is still true, the current state otherwise. -/
def seed_start (sys : Sys) (s : ProcState) : Nat :=
  if s.first then srand48 (seed_arg sys.time sys.pid) else s.xsubi

/-- A sample environment of a process with the given pid whose clock reads `time`. -/
def sysAt (time pid : Nat) : Sys :=
  { time := time, pid := pid, dlsym := 7, invoke := fun h d t p => (h : Int) + d + t + p }

/-- Number of generator values whose `drand48` result is below `crash_threshold`. -/
def threshold_count : Nat := 0x533333333334

/-! ## Basic facts about `should_abort` and `socket` -/

theorem Dyadic.blt_iff (a b : Dyadic) : a.blt b = true ↔ a.toRat < b.toRat := by
  obtain ⟨n1, e1⟩ := a
  obtain ⟨n2, e2⟩ := b
  unfold Dyadic.blt Dyadic.toRat
  rw [decide_eq_true_iff, div_lt_div_iff₀ (by positivity) (by positivity)]
  exact_mod_cast Iff.rfl

theorem should_abort_orig (sys : Sys) (s : ProcState) : (should_abort sys s).2.1.orig = s.orig := by
  obtain ⟨f, o, x⟩ := s
  cases f <;> rfl

theorem should_abort_first (sys : Sys) (s : ProcState) : (should_abort sys s).2.1.first = false := by
  obtain ⟨f, o, x⟩ := s
  cases f <;> rfl

theorem should_abort_seeded (sys : Sys) (s : ProcState) (h : s.first = false) :
    should_abort sys s =
      ((drand48_value (rand48_next s.xsubi)).blt crash_threshold,
        { s with xsubi := rand48_next s.xsubi }, [Event.drand48]) := by
  obtain ⟨f, o, x⟩ := s
  subst h
  rfl

theorem should_abort_unseeded (sys : Sys) (s : ProcState) (h : s.first = true) :
    should_abort sys s =
      ((drand48_value (rand48_next (srand48 (seed_arg sys.time sys.pid)))).blt crash_threshold,
        { first := false, orig := s.orig,
          xsubi := rand48_next (srand48 (seed_arg sys.time sys.pid)) },
        [Event.srand48 (seed_arg sys.time sys.pid), Event.drand48]) := by
  obtain ⟨f, o, x⟩ := s
  subst h
  rfl

theorem should_abort_events (sys : Sys) (s : ProcState) :
    (should_abort sys s).2.2 =
      (if s.first then [Event.srand48 (seed_arg sys.time sys.pid)] else []) ++ [Event.drand48] := by
  obtain ⟨f, o, x⟩ := s
  cases f <;> rfl

theorem socket_of_abort (sys : Sys) (d t p : Int) (s : ProcState)
    (h : (should_abort sys s).1 = true) :
    socket sys d t p s =
      (Outcome.aborted, (should_abort sys s).2.1, (should_abort sys s).2.2 ++ [Event.abort]) := by
  unfold socket
  rw [if_pos h]

theorem socket_of_cached (sys : Sys) (d t p : Int) (s : ProcState)
    (h : (should_abort sys s).1 = false) (ho : s.orig ≠ 0) :
    socket sys d t p s =
      (Outcome.returned (sys.invoke s.orig d t p), (should_abort sys s).2.1,
        (should_abort sys s).2.2 ++ [Event.call s.orig d t p]) := by
  unfold socket
  have ho2 : ¬ (should_abort sys s).2.1.orig = 0 := by rw [should_abort_orig]; exact ho
  rw [if_neg (by rw [h]; exact Bool.false_ne_true), if_neg ho2, should_abort_orig]

theorem socket_of_resolved (sys : Sys) (d t p : Int) (s : ProcState)
    (h : (should_abort sys s).1 = false) (ho : s.orig = 0) (hd : sys.dlsym ≠ 0) :
    socket sys d t p s =
      (Outcome.returned (sys.invoke sys.dlsym d t p),
        { (should_abort sys s).2.1 with orig := sys.dlsym },
        (should_abort sys s).2.2 ++ [Event.dlsym, Event.call sys.dlsym d t p]) := by
  unfold socket
  have ho2 : (should_abort sys s).2.1.orig = 0 := by rw [should_abort_orig]; exact ho
  rw [if_neg (by rw [h]; exact Bool.false_ne_true), if_pos ho2]
  exact if_neg hd

theorem socket_of_unresolved (sys : Sys) (d t p : Int) (s : ProcState)
    (h : (should_abort sys s).1 = false) (ho : s.orig = 0) (hd : sys.dlsym = 0) :
    socket sys d t p s =
      (Outcome.assert_failed, { (should_abort sys s).2.1 with orig := sys.dlsym },
        (should_abort sys s).2.2 ++ [Event.dlsym, Event.assert_fail]) := by
  unfold socket
  have ho2 : (should_abort sys s).2.1.orig = 0 := by rw [should_abort_orig]; exact ho
  rw [if_neg (by rw [h]; exact Bool.false_ne_true), if_pos ho2]
  exact if_pos hd


theorem rand48_next_lt (x : Nat) : rand48_next x < 2 ^ 48 :=
  Nat.mod_lt _ (by norm_num [rand48_modulus])

theorem should_abort_events_isCall (sys : Sys) (s : ProcState) :
    ∀ e ∈ (should_abort sys s).2.2, e.isCall = false ∧ e ≠ Event.dlsym ∧ e ≠ Event.abort := by
  obtain ⟨f, o, x⟩ := s
  intro e he
  rw [should_abort_events] at he
  cases f
  · simp only [Bool.false_eq_true, if_false, List.nil_append, List.mem_singleton] at he
    subst he
    exact ⟨rfl, by simp, by simp⟩
  · simp only [if_true, List.singleton_append, List.mem_cons, List.mem_singleton,
      List.mem_nil_iff, or_false] at he
    rcases he with rfl | rfl
    · exact ⟨rfl, by simp, by simp⟩
    · exact ⟨rfl, by simp, by simp⟩

/-! ## The claims about a single call -/

/-- C2. Fault path of `socket`: when the fault decision drawn by the call is true, `socket`
ends in `abort()` and returns no value, makes no call through a function pointer, does not
call `dlsym`, and leaves the cached handle `orig` as it was. -/
theorem socket_fault_path (sys : Sys) (domain type_ protocol : Int) (s : ProcState)
    (hdec : (should_abort sys s).1 = true) :
    (socket sys domain type_ protocol s).1 = Outcome.aborted ∧
      (socket sys domain type_ protocol s).2.2.getLast? = some Event.abort ∧
      (∀ e ∈ (socket sys domain type_ protocol s).2.2, e.isCall = false ∧ e ≠ Event.dlsym) ∧
      (socket sys domain type_ protocol s).2.1.orig = s.orig := by
  rw [socket_of_abort sys domain type_ protocol s hdec]
  refine ⟨rfl, by simp, ?_, should_abort_orig sys s⟩
  intro e he
  rcases List.mem_append.1 he with h | h
  · exact ⟨(should_abort_events_isCall sys s e h).1, (should_abort_events_isCall sys s e h).2.1⟩
  · rw [List.mem_singleton] at h
    subst h
    exact ⟨rfl, by simp⟩


theorem socket_fault_path_witness :
    (socket sampleSys 2 1 0 { first := false, orig := 0, xsubi := 5 }).1 = Outcome.aborted ∧
      (socket sampleSys 2 1 0 { first := false, orig := 0, xsubi := 5 }).2.1.orig = 0 :=
  ⟨(socket_fault_path sampleSys 2 1 0 { first := false, orig := 0, xsubi := 5 } (by decide)).1,
   (socket_fault_path sampleSys 2 1 0 { first := false, orig := 0, xsubi := 5 }
      (by decide)).2.2.2⟩

/-- C3. Fault decision of `should_abort`: in a seeded process (`first = false`) one call
replaces the generator state `X` by the next state of the `drand48` sequence and changes
nothing else, makes exactly one `drand48` call, and returns true if and only if the value
`u` drawn, which lies in `[0, 1)`, satisfies `u < crash_threshold`; `crash_threshold` is the
double nearest to `0.325` (a 53-bit mantissa, at most half a unit in the last place away). -/
theorem should_abort_decision (sys : Sys) (s : ProcState) (hs : s.first = false) :
    (should_abort sys s).2.1 = { s with xsubi := rand48_next s.xsubi } ∧
      (should_abort sys s).2.2 = [Event.drand48] ∧
      (0 ≤ (drand48_value (rand48_next s.xsubi)).toRat ∧
        (drand48_value (rand48_next s.xsubi)).toRat < 1) ∧
      ((should_abort sys s).1 = true ↔
        (drand48_value (rand48_next s.xsubi)).toRat < crash_threshold.toRat) ∧
      (2 ^ 52 ≤ crash_threshold.num ∧ crash_threshold.num < 2 ^ 53 ∧
        |crash_threshold.toRat - 325 / 1000| ≤ 1 / 2 ^ 55) := by
  rw [should_abort_seeded sys s hs]
  refine ⟨rfl, rfl, ⟨?_, ?_⟩,
    Dyadic.blt_iff (drand48_value (rand48_next s.xsubi)) crash_threshold, ?_, ?_, ?_⟩
  · unfold Dyadic.toRat
    positivity
  · have h := rand48_next_lt s.xsubi
    unfold Dyadic.toRat drand48_value
    rw [div_lt_one (by positivity)]
    exact_mod_cast h
  · decide
  · decide
  · unfold Dyadic.toRat crash_threshold
    rw [abs_le]
    constructor <;> norm_num

theorem should_abort_decision_witness :
    (should_abort sampleSys { first := false, orig := 0, xsubi := 5 }).2.1
        = { first := false, orig := 0, xsubi := rand48_next 5 } ∧
      ((should_abort sampleSys { first := false, orig := 0, xsubi := 5 }).1 = true ↔
        (drand48_value (rand48_next 5)).toRat < crash_threshold.toRat) :=
  ⟨(should_abort_decision sampleSys { first := false, orig := 0, xsubi := 5 } rfl).1,
   (should_abort_decision sampleSys { first := false, orig := 0, xsubi := 5 } rfl).2.2.2.1⟩

/-- C7. Resolution failure halts: a `socket` call that reaches the pass-through path with no
cached handle and for which `dlsym` answers null ends in the failing `assert` (a diagnostic
followed by the end of the process), returns no value and makes no call through a function
pointer; and in every `socket` call, every call made through a function pointer goes to a
non-null address. -/
theorem socket_resolution_failure (sys : Sys) (domain type_ protocol : Int) (s : ProcState) :
    ((should_abort sys s).1 = false → s.orig = 0 → sys.dlsym = 0 →
        (socket sys domain type_ protocol s).1 = Outcome.assert_failed ∧
        (socket sys domain type_ protocol s).2.2.getLast? = some Event.assert_fail ∧
        ∀ e ∈ (socket sys domain type_ protocol s).2.2, e.isCall = false) ∧
      (∀ h d t p, Event.call h d t p ∈ (socket sys domain type_ protocol s).2.2 → h ≠ 0) := by
  have hsa : ∀ h d t p, Event.call h d t p ∉ (should_abort sys s).2.2 := by
    intro h d t p hm
    have := (should_abort_events_isCall sys s _ hm).1
    simp [Event.isCall] at this
  constructor
  · intro hdec ho hd
    rw [socket_of_unresolved sys domain type_ protocol s hdec ho hd]
    refine ⟨rfl, by simp, ?_⟩
    intro e he
    rcases List.mem_append.1 he with h | h
    · exact (should_abort_events_isCall sys s e h).1
    · simp only [List.mem_cons, List.mem_singleton, List.mem_nil_iff, or_false] at h
      rcases h with rfl | rfl <;> rfl
  · intro h d t p hm
    cases hdec : (should_abort sys s).1
    · by_cases ho : s.orig = 0
      · by_cases hd : sys.dlsym = 0
        · rw [socket_of_unresolved sys domain type_ protocol s hdec ho hd] at hm
          rcases List.mem_append.1 hm with h1 | h1
          · exact absurd h1 (hsa _ _ _ _)
          · simp at h1
        · rw [socket_of_resolved sys domain type_ protocol s hdec ho hd] at hm
          rcases List.mem_append.1 hm with h1 | h1
          · exact absurd h1 (hsa _ _ _ _)
          · simp only [List.mem_cons, List.mem_singleton, List.mem_nil_iff, or_false,
              Event.call.injEq, reduceCtorEq, false_or] at h1
            rw [h1.1]; exact hd
      · rw [socket_of_cached sys domain type_ protocol s hdec ho] at hm
        rcases List.mem_append.1 hm with h1 | h1
        · exact absurd h1 (hsa _ _ _ _)
        · simp only [List.mem_singleton, Event.call.injEq] at h1
          rw [h1.1]; exact ho
    · rw [socket_of_abort sys domain type_ protocol s hdec] at hm
      rcases List.mem_append.1 hm with h1 | h1
      · exact absurd h1 (hsa _ _ _ _)
      · simp at h1

theorem socket_resolution_failure_witness :
    (socket sampleSysUnresolved 2 1 0 ProcState.start).1 = Outcome.assert_failed ∧
      (socket sampleSysUnresolved 2 1 0 ProcState.start).2.2.getLast? = some Event.assert_fail ∧
      ∀ e ∈ (socket sampleSysUnresolved 2 1 0 ProcState.start).2.2, e.isCall = false :=
  (socket_resolution_failure sampleSysUnresolved 2 1 0 ProcState.start).1
    (by decide) (by decide) (by decide)

/-- C9. `recv` always returns 0: for every socket, buffer, length and flags and in every
process state, `recv` returns 0, leaves the process state as it is (so neither the `first`
flag nor the generator state moves and no later fault decision changes), and makes no
library call at all: no `drand48`, no `dlsym`, no call through a function pointer. -/
theorem recv_returns_zero (fd : Int) (buf : List Nat) (len : Nat) (flags : Int)
    (st : ProcState) (env : Nat → Sys) (n : Nat) :
    (recv fd buf len flags st).1 = Outcome.returned 0 ∧
      (recv fd buf len flags st).2.1 = st ∧
      (recv fd buf len flags st).2.2 = [] ∧
      decision env (recv fd buf len flags st).2.1 n = decision env st n ∧
      (step (env 0) (Call.recv fd buf len flags) st).1 = Outcome.returned (Value.int 0) :=
  ⟨rfl, rfl, rfl, rfl, rfl⟩

/-- C10. `gethostbyname` always returns null: for every name and in every process state,
`gethostbyname` returns the null host record, leaves the process state as it is (so neither
the `first` flag nor the generator state moves and no later fault decision changes), and
makes no library call at all: no `drand48`, no `dlsym`, no call through a function pointer. -/
theorem gethostbyname_returns_null (name : String) (st : ProcState) (env : Nat → Sys)
    (n : Nat) :
    (gethostbyname name st).1 = Outcome.returned none ∧
      (gethostbyname name st).2.1 = st ∧
      (gethostbyname name st).2.2 = [] ∧
      decision env (gethostbyname name st).2.1 n = decision env st n ∧
      (step (env 0) (Call.gethostbyname name) st).1 = Outcome.returned (Value.host none) :=
  ⟨rfl, rfl, rfl, rfl, rfl⟩


/-! ## Runs: seeding -/

theorem socket_cases (sys : Sys) (d t p : Int) (s : ProcState) :
    (socket sys d t p s =
        (Outcome.aborted, (should_abort sys s).2.1, (should_abort sys s).2.2 ++ [Event.abort])) ∨
      (s.orig ≠ 0 ∧ socket sys d t p s =
        (Outcome.returned (sys.invoke s.orig d t p), (should_abort sys s).2.1,
          (should_abort sys s).2.2 ++ [Event.call s.orig d t p])) ∨
      (s.orig = 0 ∧ sys.dlsym ≠ 0 ∧ socket sys d t p s =
        (Outcome.returned (sys.invoke sys.dlsym d t p),
          { (should_abort sys s).2.1 with orig := sys.dlsym },
          (should_abort sys s).2.2 ++ [Event.dlsym, Event.call sys.dlsym d t p])) ∨
      (s.orig = 0 ∧ socket sys d t p s =
        (Outcome.assert_failed, { (should_abort sys s).2.1 with orig := sys.dlsym },
          (should_abort sys s).2.2 ++ [Event.dlsym, Event.assert_fail])) := by
  cases hdec : (should_abort sys s).1
  · by_cases ho : s.orig = 0
    · by_cases hd : sys.dlsym = 0
      · exact Or.inr (Or.inr (Or.inr ⟨ho, socket_of_unresolved sys d t p s hdec ho hd⟩))
      · exact Or.inr (Or.inr (Or.inl ⟨ho, hd, socket_of_resolved sys d t p s hdec ho hd⟩))
    · exact Or.inr (Or.inl ⟨ho, socket_of_cached sys d t p s hdec ho⟩)
  · exact Or.inl (socket_of_abort sys d t p s hdec)

theorem socket_first (sys : Sys) (d t p : Int) (s : ProcState) :
    (socket sys d t p s).2.1.first = false := by
  rcases socket_cases sys d t p s with h | ⟨_, h⟩ | ⟨_, _, h⟩ | ⟨_, h⟩ <;> rw [h] <;>
    exact should_abort_first sys s

/-- The events of a `socket` call: those of `should_abort`, then a tail without `srand48`. -/
theorem socket_events_split (sys : Sys) (d t p : Int) (s : ProcState) :
    ∃ tail, (socket sys d t p s).2.2 = (should_abort sys s).2.2 ++ tail ∧
      tail.filter Event.isSeed = [] := by
  rcases socket_cases sys d t p s with h | ⟨_, h⟩ | ⟨_, _, h⟩ | ⟨_, h⟩ <;> rw [h] <;>
    exact ⟨_, rfl, rfl⟩

theorem seedCount_nil : seedCount [] = 0 := rfl

theorem seedCount_cons (l : List Event) (tl : List (List Event)) :
    seedCount (l :: tl) = (l.filter Event.isSeed).length + seedCount tl := by
  simp [seedCount, List.filter_append]

theorem seedCount_append (l1 l2 : List (List Event)) :
    seedCount (l1 ++ l2) = seedCount l1 + seedCount l2 := by
  simp [seedCount, List.filter_append]

theorem seedCount_replicate_nil (n : Nat) : seedCount (List.replicate n []) = 0 := by
  induction n with
  | zero => rfl
  | succ n ih => rw [List.replicate_succ, seedCount_cons, ih]; rfl

theorem run_cons (sys : Sys) (c : Call) (rest : List (Sys × Call)) (s : ProcState) :
    run ((sys, c) :: rest) s =
      if (step sys c s).1.isReturned then
        { run rest (step sys c s).2.1 with
          log := (step sys c s).2.2 :: (run rest (step sys c s).2.1).log }
      else { log := [(step sys c s).2.2], final := (step sys c s).2.1, alive := false } := rfl

theorem step_of_not_socket (sys : Sys) (c : Call) (s : ProcState) (h : c.isSocket = false) :
    (step sys c s).1.isReturned = true ∧ (step sys c s).2.1 = s ∧ (step sys c s).2.2 = [] := by
  cases c with
  | socket d t p => simp [Call.isSocket] at h
  | recv fd buf len flags => exact ⟨rfl, rfl, rfl⟩
  | gethostbyname name => exact ⟨rfl, rfl, rfl⟩

theorem step_seeded (sys : Sys) (c : Call) (s : ProcState) (h : s.first = false) :
    (step sys c s).2.1.first = false ∧ (step sys c s).2.2.filter Event.isSeed = [] := by
  cases c with
  | socket d t p =>
    refine ⟨socket_first sys d t p s, ?_⟩
    obtain ⟨tail, h1, h2⟩ := socket_events_split sys d t p s
    show (socket sys d t p s).2.2.filter Event.isSeed = []
    rw [h1, List.filter_append, h2, should_abort_events, h]
    rfl
  | recv fd buf len flags => exact ⟨h, rfl⟩
  | gethostbyname name => exact ⟨h, rfl⟩

theorem run_seeded (cs : List (Sys × Call)) (s : ProcState) (h : s.first = false) :
    seedCount (run cs s).log = 0 ∧ (run cs s).final.first = false := by
  induction cs generalizing s with
  | nil => exact ⟨rfl, h⟩
  | cons a rest ih =>
    obtain ⟨sys, c⟩ := a
    obtain ⟨h1, h2⟩ := step_seeded sys c s h
    rw [run_cons]
    split
    · obtain ⟨i1, i2⟩ := ih (step sys c s).2.1 h1
      refine ⟨?_, i2⟩
      show seedCount ((step sys c s).2.2 :: (run rest (step sys c s).2.1).log) = 0
      rw [seedCount_cons, h2, i1]
      rfl
    · refine ⟨?_, h1⟩
      show seedCount [(step sys c s).2.2] = 0
      rw [seedCount_cons, h2]
      rfl

theorem run_append_of_not_socket (pre rest : List (Sys × Call)) (s : ProcState)
    (h : ∀ c ∈ pre, c.2.isSocket = false) :
    run (pre ++ rest) s =
      { run rest s with log := List.replicate pre.length [] ++ (run rest s).log } := by
  induction pre with
  | nil => rfl
  | cons a pre ih =>
    obtain ⟨sys, c⟩ := a
    obtain ⟨h1, h2, h3⟩ := step_of_not_socket sys c s (h (sys, c) (List.mem_cons_self _ _))
    rw [List.cons_append, run_cons, if_pos h1, h2, h3,
      ih (fun c hc => h c (List.mem_cons_of_mem _ hc))]
    rfl

theorem run_socket_unseeded (sys : Sys) (d t p : Int) (post : List (Sys × Call))
    (s : ProcState) (h : s.first = true) :
    ∃ rest tail, (run ((sys, Call.socket d t p) :: post) s).log =
        (Event.srand48 (seed_arg sys.time sys.pid) :: Event.drand48 :: rest) :: tail ∧
      seedCount (rest :: tail) = 0 ∧
      (run ((sys, Call.socket d t p) :: post) s).final.first = false := by
  obtain ⟨tl, h1, h2⟩ := socket_events_split sys d t p s
  have hev : (step sys (Call.socket d t p) s).2.2 =
      Event.srand48 (seed_arg sys.time sys.pid) :: Event.drand48 :: tl := by
    show (socket sys d t p s).2.2 = _
    rw [h1, should_abort_events, h]
    rfl
  have hf : (step sys (Call.socket d t p) s).2.1.first = false := socket_first sys d t p s
  rw [run_cons]
  split
  · obtain ⟨i1, i2⟩ := run_seeded post _ hf
    refine ⟨tl, (run post (step sys (Call.socket d t p) s).2.1).log, ?_, ?_, i2⟩
    · show (step sys (Call.socket d t p) s).2.2 :: _ = _
      rw [hev]
    · rw [seedCount_cons, h2, i1]
      rfl
  · refine ⟨tl, [], ?_, ?_, hf⟩
    · show [(step sys (Call.socket d t p) s).2.2] = _
      rw [hev]
    · rw [seedCount_cons, h2]
      rfl

/-- C5. One-time seeding. The seed-initialized flag is false at process start (`first` is
true). In a run of any sequence of `socket`, `recv` and `gethostbyname` calls from a state
with the flag false: as long as no `socket` call was made nothing is seeded and the flag
stays false; the first `socket` call (the first call asking for a fault decision) begins
with `srand48 (time ^ (pid << 16))` immediately followed by its `drand48` draw, this is the
only `srand48` call of the whole run, and the flag is true at the end. Once the flag is true
every operation leaves it true and makes no `srand48` call. -/
theorem seeding_once :
    ProcState.start.seeded = false ∧
    (∀ (s0 : ProcState) (cs : List (Sys × Call)), s0.seeded = false →
      (∀ c ∈ cs, c.2.isSocket = false) →
      seedCount (run cs s0).log = 0 ∧ (run cs s0).final.seeded = false) ∧
    (∀ (s0 : ProcState) (pre : List (Sys × Call)) (sys : Sys) (d t p : Int)
        (post : List (Sys × Call)), s0.seeded = false →
      (∀ c ∈ pre, c.2.isSocket = false) →
      ∃ rest tail,
        (run (pre ++ (sys, Call.socket d t p) :: post) s0).log =
          List.replicate pre.length [] ++
            (Event.srand48 (seed_arg sys.time sys.pid) :: Event.drand48 :: rest) :: tail ∧
        seedCount (rest :: tail) = 0 ∧
        seedCount (run (pre ++ (sys, Call.socket d t p) :: post) s0).log = 1 ∧
        (run (pre ++ (sys, Call.socket d t p) :: post) s0).final.seeded = true) ∧
    (∀ (sys : Sys) (c : Call) (s : ProcState), s.seeded = true →
      (step sys c s).2.1.seeded = true ∧ ∀ e ∈ (step sys c s).2.2, e.isSeed = false) := by
  refine ⟨rfl, ?_, ?_, ?_⟩
  · intro s0 cs h0 hcs
    have := run_append_of_not_socket cs [] s0 hcs
    rw [List.append_nil] at this
    rw [this]
    refine ⟨?_, h0⟩
    show seedCount (List.replicate cs.length [] ++ []) = 0
    rw [List.append_nil, seedCount_replicate_nil]
  · intro s0 pre sys d t p post h0 hpre
    have hfirst : s0.first = true := by
      cases hf : s0.first
      · simp [ProcState.seeded, hf] at h0
      · rfl
    obtain ⟨rest, tail, h1, h2, h3⟩ := run_socket_unseeded sys d t p post s0 hfirst
    have hlog : (run (pre ++ (sys, Call.socket d t p) :: post) s0).log =
        List.replicate pre.length [] ++
          (Event.srand48 (seed_arg sys.time sys.pid) :: Event.drand48 :: rest) :: tail := by
      rw [run_append_of_not_socket pre _ s0 hpre]
      show List.replicate pre.length [] ++ (run ((sys, Call.socket d t p) :: post) s0).log = _
      rw [h1]
    refine ⟨rest, tail, hlog, h2, ?_, ?_⟩
    · rw [hlog, seedCount_append, seedCount_replicate_nil, seedCount_cons]
      rw [seedCount_cons] at h2
      have h4 : (List.filter Event.isSeed
          (Event.srand48 (seed_arg sys.time sys.pid) :: Event.drand48 :: rest)).length =
          1 + (List.filter Event.isSeed rest).length := by
        simp [List.filter_cons, Event.isSeed]; omega
      omega
    · rw [run_append_of_not_socket pre _ s0 hpre]
      show (!(run ((sys, Call.socket d t p) :: post) s0).final.first) = true
      rw [h3]
      rfl
  · intro sys c s hs
    have hfirst : s.first = false := by
      cases hf : s.first
      · rfl
      · simp [ProcState.seeded, hf] at hs
    obtain ⟨h1, h2⟩ := step_seeded sys c s hfirst
    refine ⟨?_, ?_⟩
    · show (!(step sys c s).2.1.first) = true
      rw [h1]; rfl
    · intro e he
      by_contra hne
      have : e ∈ (step sys c s).2.2.filter Event.isSeed :=
        List.mem_filter.2 ⟨he, by simpa using hne⟩
      rw [h2] at this
      simp at this


/-! ## Runs: resolution of the real `socket` -/

theorem dlsymCount_cons (l : List Event) (tl : List (List Event)) :
    dlsymCount (l :: tl) = l.count Event.dlsym + dlsymCount tl := by
  simp [dlsymCount, List.count_append]

theorem should_abort_events_facts (sys : Sys) (s : ProcState) :
    Event.drand48 ∈ (should_abort sys s).2.2 ∧ Event.dlsym ∉ (should_abort sys s).2.2 ∧
      Event.abort ∉ (should_abort sys s).2.2 := by
  rw [should_abort_events]
  cases s.first <;> simp

/-- What one `socket` call does to the cache and which events it leaves, by case. -/
theorem socket_resolution_facts (sys : Sys) (d t p : Int) (s : ProcState) :
    (s.orig ≠ 0 → Event.dlsym ∉ (socket sys d t p s).2.2 ∧
        (socket sys d t p s).2.1.orig = s.orig) ∧
      (s.orig = 0 →
        (Event.dlsym ∈ (socket sys d t p s).2.2 ↔
          reachedPassThrough (socket sys d t p s).2.2 = true) ∧
        (socket sys d t p s).2.2.count Event.dlsym ≤ 1 ∧
        ((socket sys d t p s).1.isReturned = true →
          (socket sys d t p s).2.1.orig ≠ 0 ∧
            reachedPassThrough (socket sys d t p s).2.2 = true)) := by
  obtain ⟨h1, h2, h3⟩ := should_abort_events_facts sys s
  have hc : (should_abort sys s).2.2.count Event.dlsym = 0 := List.count_eq_zero.2 h2
  rcases socket_cases sys d t p s with h | ⟨ho, h⟩ | ⟨ho, hd, h⟩ | ⟨ho, h⟩
  · rw [h]
    refine ⟨fun _ => ⟨by simp [h2], should_abort_orig sys s⟩, fun _ => ⟨?_, ?_, ?_⟩⟩
    · simp [reachedPassThrough, h2]
    · simp [List.count_append, hc]
    · intro hr; simp [Outcome.isReturned] at hr
  · rw [h]
    refine ⟨fun _ => ⟨by simp [h2], should_abort_orig sys s⟩, fun h0 => absurd h0 ho⟩
  · rw [h]
    refine ⟨fun hne => absurd ho hne, fun _ => ⟨?_, ?_, ?_⟩⟩
    · simp [reachedPassThrough, h1, h3]
    · simp [List.count_append, hc, List.count_cons]
    · intro _
      exact ⟨hd, by simp [reachedPassThrough, h1, h3]⟩
  · rw [h]
    refine ⟨fun hne => absurd ho hne, fun _ => ⟨?_, ?_, ?_⟩⟩
    · simp [reachedPassThrough, h1, h3]
    · simp [List.count_append, hc, List.count_cons]
    · intro hr; simp [Outcome.isReturned] at hr

theorem step_socket (sys : Sys) (d t p : Int) (s : ProcState) :
    step sys (Call.socket d t p) s =
      ((socket sys d t p s).1.map Value.int, (socket sys d t p s).2.1,
        (socket sys d t p s).2.2) := rfl

theorem isReturned_map {α β : Type} (f : α → β) (o : Outcome α) :
    (o.map f).isReturned = o.isReturned := by
  cases o <;> rfl

/-- The same facts for an arbitrary call. -/
theorem step_resolution_facts (sys : Sys) (c : Call) (s : ProcState) :
    (s.orig ≠ 0 → Event.dlsym ∉ (step sys c s).2.2 ∧ (step sys c s).2.1.orig = s.orig) ∧
      (s.orig = 0 →
        (Event.dlsym ∈ (step sys c s).2.2 ↔ reachedPassThrough (step sys c s).2.2 = true) ∧
        (step sys c s).2.2.count Event.dlsym ≤ 1 ∧
        ((step sys c s).1.isReturned = true →
          ((step sys c s).2.1.orig ≠ 0 ∧ reachedPassThrough (step sys c s).2.2 = true) ∨
          ((step sys c s).2.1.orig = 0 ∧ reachedPassThrough (step sys c s).2.2 = false))) := by
  cases c with
  | socket d t p =>
    rw [step_socket]
    obtain ⟨h1, h2⟩ := socket_resolution_facts sys d t p s
    refine ⟨h1, fun h0 => ⟨(h2 h0).1, (h2 h0).2.1, fun hr => Or.inl ((h2 h0).2.2 ?_)⟩⟩
    rw [← isReturned_map Value.int]
    exact hr
  | recv fd buf len flags =>
    refine ⟨fun _ => ⟨List.not_mem_nil _, rfl⟩, fun h0 => ⟨?_, Nat.zero_le _, fun _ => Or.inr ⟨h0, rfl⟩⟩⟩
    exact ⟨fun h => absurd h (List.not_mem_nil _), fun h => by cases h⟩
  | gethostbyname name =>
    refine ⟨fun _ => ⟨List.not_mem_nil _, rfl⟩, fun h0 => ⟨?_, Nat.zero_le _, fun _ => Or.inr ⟨h0, rfl⟩⟩⟩
    exact ⟨fun h => absurd h (List.not_mem_nil _), fun h => by cases h⟩

theorem run_log_cons (sys : Sys) (c : Call) (rest : List (Sys × Call)) (s : ProcState) :
    (run ((sys, c) :: rest) s).log =
      (step sys c s).2.2 ::
        (if (step sys c s).1.isReturned then (run rest (step sys c s).2.1).log else []) := by
  rw [run_cons]
  split <;> rfl

theorem run_resolved (cs : List (Sys × Call)) (s : ProcState) (h : s.orig ≠ 0) :
    (∀ l ∈ (run cs s).log, Event.dlsym ∉ l) ∧ dlsymCount (run cs s).log = 0 := by
  induction cs generalizing s with
  | nil => exact ⟨fun l hl => absurd hl (List.not_mem_nil _), rfl⟩
  | cons a rest ih =>
    obtain ⟨sys, c⟩ := a
    obtain ⟨h1, h2⟩ := (step_resolution_facts sys c s).1 h
    obtain ⟨i1, i2⟩ := ih (step sys c s).2.1 (by rw [h2]; exact h)
    rw [run_log_cons]
    constructor
    · intro l hl
      rcases List.mem_cons.1 hl with rfl | hl
      · exact h1
      · split at hl
        · exact i1 l hl
        · exact absurd hl (List.not_mem_nil _)
    · rw [dlsymCount_cons, List.count_eq_zero.2 h1]
      split
      · rw [i2]
      · rfl

theorem run_unresolved (cs : List (Sys × Call)) (s : ProcState) (h : s.orig = 0) :
    (∀ l1 l l2, (run cs s).log = l1 ++ l :: l2 →
        (Event.dlsym ∈ l ↔
          reachedPassThrough l = true ∧ ∀ k ∈ l1, reachedPassThrough k = false)) ∧
      dlsymCount (run cs s).log ≤ 1 := by
  induction cs generalizing s with
  | nil =>
    refine ⟨fun l1 l l2 hl => ?_, Nat.zero_le _⟩
    have : (run [] s).log = [] := rfl
    rw [this] at hl
    simp at hl
  | cons a rest ih =>
    obtain ⟨sys, c⟩ := a
    obtain ⟨h1, h2, h3⟩ := (step_resolution_facts sys c s).2 h
    rw [run_log_cons]
    by_cases hr : (step sys c s).1.isReturned = true
    · rw [if_pos hr]
      rcases h3 hr with ⟨ho, hp⟩ | ⟨ho, hp⟩
      · obtain ⟨i1, i2⟩ := run_resolved rest _ ho
        constructor
        · intro l1 l l2 hl
          cases l1 with
          | nil =>
            rw [List.nil_append, List.cons.injEq] at hl
            rw [← hl.1, h1]
            simp
          | cons k l1 =>
            rw [List.cons_append, List.cons.injEq] at hl
            have hmem : l ∈ (run rest (step sys c s).2.1).log := by
              rw [hl.2]; simp
            constructor
            · intro hd; exact absurd hd (i1 l hmem)
            · rintro ⟨_, hk⟩
              have := hk k (List.mem_cons_self _ _)
              rw [← hl.1, hp] at this
              cases this
        · rw [dlsymCount_cons, i2]
          exact h2
      · obtain ⟨i1, i2⟩ := ih _ ho
        have hnd : Event.dlsym ∉ (step sys c s).2.2 := by
          rw [h1, hp]; exact Bool.false_ne_true
        constructor
        · intro l1 l l2 hl
          cases l1 with
          | nil =>
            rw [List.nil_append, List.cons.injEq] at hl
            rw [← hl.1, h1]
            simp
          | cons k l1 =>
            rw [List.cons_append, List.cons.injEq] at hl
            rw [i1 l1 l l2 hl.2]
            constructor
            · rintro ⟨ha, hb⟩
              refine ⟨ha, fun k' hk' => ?_⟩
              rcases List.mem_cons.1 hk' with rfl | hk'
              · rw [← hl.1]; exact hp
              · exact hb k' hk'
            · rintro ⟨ha, hb⟩
              exact ⟨ha, fun k' hk' => hb k' (List.mem_cons_of_mem _ hk')⟩
        · rw [dlsymCount_cons, List.count_eq_zero.2 hnd, Nat.zero_add]
          exact i2
    · rw [if_neg hr]
      constructor
      · intro l1 l l2 hl
        cases l1 with
        | nil =>
          rw [List.nil_append, List.cons.injEq] at hl
          rw [← hl.1, h1]
          simp
        | cons k l1 =>
          rw [List.cons_append, List.cons.injEq] at hl
          have := hl.2
          simp at this
      · rw [dlsymCount_cons]
        show _ + 0 ≤ 1
        exact h2


theorem run_resolved_final (cs : List (Sys × Call)) (s : ProcState) (h : s.orig ≠ 0) :
    (run cs s).final.orig = s.orig := by
  induction cs generalizing s with
  | nil => rfl
  | cons a rest ih =>
    obtain ⟨sys, c⟩ := a
    obtain ⟨_, h2⟩ := (step_resolution_facts sys c s).1 h
    rw [run_cons]
    split
    · show (run rest (step sys c s).2.1).final.orig = s.orig
      rw [ih _ (by rw [h2]; exact h), h2]
    · exact h2

theorem socket_reachedPassThrough (sys : Sys) (d t p : Int) (s : ProcState) :
    reachedPassThrough (socket sys d t p s).2.2 = true ↔ (should_abort sys s).1 = false := by
  obtain ⟨h1, _, h3⟩ := should_abort_events_facts sys s
  cases hdec : (should_abort sys s).1
  · by_cases ho : s.orig = 0
    · by_cases hd : sys.dlsym = 0
      · rw [socket_of_unresolved sys d t p s hdec ho hd]
        simp [reachedPassThrough, h1, h3]
      · rw [socket_of_resolved sys d t p s hdec ho hd]
        simp [reachedPassThrough, h1, h3]
    · rw [socket_of_cached sys d t p s hdec ho]
      simp [reachedPassThrough, h1, h3]
  · rw [socket_of_abort sys d t p s hdec]
    simp [reachedPassThrough]

/-- C6. Resolve-once caching of the real `socket` handle. In a run of any sequence of calls
from a state with an empty cache (as at process start), `dlsym` is called at most once, and
a call makes the `dlsym` call exactly when it is the first call of the run to reach the
pass-through path (a `socket` call reaches it exactly when its fault decision is false);
that call stores the address `dlsym` answered. Once the cache is non-null, every operation
leaves it unchanged and makes no `dlsym` call, so do whole runs, and a pass-through `socket`
call invokes the cached address with its own three arguments. -/
theorem resolve_once :
    ProcState.start.orig = 0 ∧
    (∀ (s0 : ProcState) (cs : List (Sys × Call)), s0.orig = 0 →
      dlsymCount (run cs s0).log ≤ 1 ∧
      ∀ l1 l l2, (run cs s0).log = l1 ++ l :: l2 →
        (Event.dlsym ∈ l ↔
          reachedPassThrough l = true ∧ ∀ k ∈ l1, reachedPassThrough k = false)) ∧
    (∀ (sys : Sys) (d t p : Int) (s : ProcState),
      (reachedPassThrough (socket sys d t p s).2.2 = true ↔ (should_abort sys s).1 = false) ∧
      (s.orig = 0 → (should_abort sys s).1 = false →
        (socket sys d t p s).2.1.orig = sys.dlsym)) ∧
    (∀ (sys : Sys) (c : Call) (s : ProcState), s.orig ≠ 0 →
      (step sys c s).2.1.orig = s.orig ∧ Event.dlsym ∉ (step sys c s).2.2) ∧
    (∀ (s : ProcState) (cs : List (Sys × Call)), s.orig ≠ 0 →
      dlsymCount (run cs s).log = 0 ∧ (run cs s).final.orig = s.orig) ∧
    (∀ (sys : Sys) (d t p : Int) (s : ProcState), s.orig ≠ 0 →
      (should_abort sys s).1 = false →
      (socket sys d t p s).1 = Outcome.returned (sys.invoke s.orig d t p) ∧
      (socket sys d t p s).2.2.filter Event.isCall = [Event.call s.orig d t p]) := by
  refine ⟨rfl, ?_, ?_, ?_, ?_, ?_⟩
  · intro s0 cs h0
    exact ⟨(run_unresolved cs s0 h0).2, (run_unresolved cs s0 h0).1⟩
  · intro sys d t p s
    refine ⟨socket_reachedPassThrough sys d t p s, fun ho hdec => ?_⟩
    by_cases hd : sys.dlsym = 0
    · rw [socket_of_unresolved sys d t p s hdec ho hd]
    · rw [socket_of_resolved sys d t p s hdec ho hd]
  · intro sys c s hs
    exact ⟨((step_resolution_facts sys c s).1 hs).2, ((step_resolution_facts sys c s).1 hs).1⟩
  · intro s cs hs
    exact ⟨(run_resolved cs s hs).2, run_resolved_final cs s hs⟩
  · intro sys d t p s hs hdec
    rw [socket_of_cached sys d t p s hdec hs]
    refine ⟨rfl, ?_⟩
    have hf : (should_abort sys s).2.2.filter Event.isCall = [] := by
      rw [List.filter_eq_nil_iff]
      intro e he
      rw [(should_abort_events_isCall sys s e he).1]
      exact Bool.false_ne_true
    rw [List.filter_append, hf]
    rfl

theorem resolve_once_witness :
    dlsymCount (run [(sampleSys, Call.socket 2 1 0), (sampleSys, Call.recv 3 [] 8 0),
      (sampleSys, Call.socket 2 1 0)] ProcState.start).log ≤ 1 :=
  (resolve_once.2.1 ProcState.start _ rfl).1

theorem seeding_once_witness :
    seedCount (run [(sampleSys, Call.recv 3 [] 8 0), (sampleSys, Call.gethostbyname "h")]
        ProcState.start).log = 0 ∧
      (∃ rest tail,
        (run [(sampleSys, Call.recv 3 [] 8 0), (sampleSys, Call.socket 2 1 0),
            (sampleSys, Call.gethostbyname "h"), (sampleSys, Call.socket 2 1 0)]
          ProcState.start).log =
          [[], Event.srand48 (seed_arg 1700000000 4242) :: Event.drand48 :: rest] ++ tail ∧
        seedCount (rest :: tail) = 0) ∧
      seedCount (run [(sampleSys, Call.recv 3 [] 8 0), (sampleSys, Call.socket 2 1 0),
          (sampleSys, Call.gethostbyname "h"), (sampleSys, Call.socket 2 1 0)]
        ProcState.start).log = 1 ∧
      (run [(sampleSys, Call.recv 3 [] 8 0), (sampleSys, Call.socket 2 1 0),
          (sampleSys, Call.gethostbyname "h"), (sampleSys, Call.socket 2 1 0)]
        ProcState.start).final.seeded = true ∧
      (step sampleSys (Call.socket 2 1 0) { first := false, orig := 7, xsubi := 5 }).2.1.seeded
        = true ∧
      ∀ e ∈ (step sampleSys (Call.socket 2 1 0) { first := false, orig := 7, xsubi := 5 }).2.2,
        e.isSeed = false :=
  match seeding_once.2.2.1 ProcState.start [(sampleSys, Call.recv 3 [] 8 0)] sampleSys 2 1 0
      [(sampleSys, Call.gethostbyname "h"), (sampleSys, Call.socket 2 1 0)] rfl
      (by decide) with
  | ⟨rest, tail, hlog, hrest, hcount, hflag⟩ =>
    ⟨(seeding_once.2.1 ProcState.start _ rfl (by decide)).1,
      ⟨rest, tail, hlog, hrest⟩, hcount, hflag,
      seeding_once.2.2.2 sampleSys (Call.socket 2 1 0)
        { first := false, orig := 7, xsubi := 5 } rfl⟩

/-! ## The generator: period and counting -/

theorem rand48_next_eq_affine48 (x : Nat) : rand48_next x = affine48 rand48_a rand48_c x := rfl

theorem affine48_comp (A C x : Nat) :
    affine48 A C (affine48 A C x) = affine48 (affine48_sq (A, C)).1 (affine48_sq (A, C)).2 x := by
  unfold affine48 affine48_sq
  have h1 : A * ((A * x + C) % 2 ^ 48) + C ≡ A * (A * x + C) + C [MOD 2 ^ 48] :=
    ((Nat.mod_modEq _ _).mul_left A).add_right C
  have h2 : A * A % 2 ^ 48 * x + (A * C + C) % 2 ^ 48 ≡ A * A * x + (A * C + C) [MOD 2 ^ 48] :=
    ((Nat.mod_modEq _ _).mul_right x).add (Nat.mod_modEq _ _)
  have h3 : A * (A * x + C) + C = A * A * x + (A * C + C) := by ring
  rw [h3] at h1
  exact h1.trans h2.symm

theorem affine48_iterate_two_pow (A C : Nat) (k : Nat) :
    ∀ x, (affine48 A C)^[2 ^ k] x =
      affine48 (affine48_sq^[k] (A, C)).1 (affine48_sq^[k] (A, C)).2 x := by
  induction k with
  | zero => intro x; rfl
  | succ k ih =>
    intro x
    rw [pow_succ, Nat.mul_two, Function.iterate_add_apply, ih, ih,
      Function.iterate_succ_apply']
    generalize affine48_sq^[k] (A, C) = m
    obtain ⟨a, c⟩ := m
    exact affine48_comp a c x

theorem affine48_sq_iterate_47 :
    affine48_sq^[47] (rand48_a, rand48_c) = (1, 2 ^ 47) := by
  decide

/-- Half a period of the generator flips the top bit of the state. -/
theorem rand48_next_iterate_half (x : Nat) :
    rand48_next^[2 ^ 47] x = (x + 2 ^ 47) % 2 ^ 48 := by
  have h : rand48_next = affine48 rand48_a rand48_c := funext rand48_next_eq_affine48
  rw [h, affine48_iterate_two_pow, affine48_sq_iterate_47]
  unfold affine48
  rw [Nat.one_mul]

theorem rand48_next_iterate_half_mul (r : Nat) (x : Nat) :
    rand48_next^[2 ^ 47 * (r + 1)] x = (x + (r + 1) * 2 ^ 47) % 2 ^ 48 := by
  induction r with
  | zero => rw [Nat.zero_add, Nat.mul_one, Nat.one_mul]; exact rand48_next_iterate_half x
  | succ r ih =>
    rw [Nat.mul_succ, Nat.add_comm (2 ^ 47 * (r + 1)) (2 ^ 47), Function.iterate_add_apply, ih,
      rand48_next_iterate_half]
    omega

theorem rand48_next_iterate_half_odd (r : Nat) (hr : r % 2 = 1) (x : Nat) :
    rand48_next^[2 ^ 47 * r] x = (x + 2 ^ 47) % 2 ^ 48 := by
  obtain ⟨t, rfl⟩ : ∃ t, r = t + 1 := ⟨r - 1, by omega⟩
  rw [rand48_next_iterate_half_mul]
  omega

theorem rand48_next_iterate_full (x : Nat) (hx : x < 2 ^ 48) : rand48_next^[2 ^ 48] x = x := by
  have h : (2 : Nat) ^ 48 = 2 ^ 47 * (1 + 1) := by norm_num
  rw [h, rand48_next_iterate_half_mul]
  omega

/-- The generator has full period: every state lies on one cycle of length `2^48`. -/
theorem rand48_minimalPeriod (x : Nat) (hx : x < 2 ^ 48) :
    Function.minimalPeriod rand48_next x = 2 ^ 48 := by
  have h1 : ¬ Function.IsPeriodicPt rand48_next (2 ^ 47) x := by
    intro h
    have h2 : rand48_next^[2 ^ 47] x = x := h
    rw [rand48_next_iterate_half] at h2
    omega
  have h2 : Function.IsPeriodicPt rand48_next (2 ^ (47 + 1)) x :=
    rand48_next_iterate_full x hx
  exact Function.minimalPeriod_eq_prime_pow h1 h2

theorem rand48_iterate_lt (n x : Nat) (hx : x < 2 ^ 48) : rand48_next^[n] x < 2 ^ 48 := by
  cases n with
  | zero => exact hx
  | succ n => rw [Function.iterate_succ_apply']; exact rand48_next_lt _

/-- The first `2^48` states visited from any state are all the states. -/
theorem rand48_orbit_image (x : Nat) (hx : x < 2 ^ 48) :
    (Finset.range (2 ^ 48)).image (fun n => rand48_next^[n] x) = Finset.range (2 ^ 48) := by
  apply Finset.eq_of_subset_of_card_le
  · intro y hy
    obtain ⟨n, _, rfl⟩ := Finset.mem_image.1 hy
    exact Finset.mem_range.2 (rand48_iterate_lt n x hx)
  · rw [Finset.card_image_of_injOn]
    intro a ha b hb hab
    have hinj := @Function.iterate_injOn_Iio_minimalPeriod _ rand48_next x
    rw [rand48_minimalPeriod x hx] at hinj
    exact hinj (Finset.mem_range.1 ha) (Finset.mem_range.1 hb) hab

theorem rand48_orbit_surjective (x y : Nat) (hx : x < 2 ^ 48) (hy : y < 2 ^ 48) :
    ∃ n, n < 2 ^ 48 ∧ rand48_next^[n] x = y := by
  have h : y ∈ (Finset.range (2 ^ 48)).image (fun n => rand48_next^[n] x) := by
    rw [rand48_orbit_image x hx]; exact Finset.mem_range.2 hy
  obtain ⟨n, hn, rfl⟩ := Finset.mem_image.1 h
  exact ⟨n, Finset.mem_range.1 hn, rfl⟩

/-- Counting along the first `2^48` states of an orbit is counting over all states. -/
theorem rand48_orbit_count (x : Nat) (hx : x < 2 ^ 48) (P : Nat → Prop) [DecidablePred P] :
    ((Finset.range (2 ^ 48)).filter (fun n => P (rand48_next^[n] x))).card =
      ((Finset.range (2 ^ 48)).filter P).card := by
  have hinj : Set.InjOn (fun n => rand48_next^[n] x)
      ((Finset.range (2 ^ 48)).filter (fun n => P (rand48_next^[n] x)) : Finset Nat) := by
    intro a ha b hb hab
    have hinj := @Function.iterate_injOn_Iio_minimalPeriod _ rand48_next x
    rw [rand48_minimalPeriod x hx] at hinj
    exact hinj (Finset.mem_range.1 (Finset.mem_filter.1 ha).1)
      (Finset.mem_range.1 (Finset.mem_filter.1 hb).1) hab
  rw [← Finset.card_image_of_injOn hinj]
  refine congrArg Finset.card ?_
  ext y
  simp only [Finset.mem_image, Finset.mem_filter, Finset.mem_range]
  constructor
  · rintro ⟨n, ⟨_, hP⟩, rfl⟩
    exact ⟨rand48_iterate_lt n x hx, hP⟩
  · rintro ⟨hy, hP⟩
    obtain ⟨n, hn, rfl⟩ := rand48_orbit_surjective x y hx hy
    exact ⟨n, ⟨hn, hP⟩, rfl⟩


/-! ## Fault decisions along the generator sequence -/

/-- The comparison against `crash_threshold`, on generator states. -/
theorem blt_crash_threshold_iff (y : Nat) :
    (drand48_value y).blt crash_threshold = true ↔ y < threshold_count := by
  show decide (y * 2 ^ 54 < 0x14CCCCCCCCCCCD * 2 ^ 48) = true ↔ y < threshold_count
  rw [decide_eq_true_iff]
  unfold threshold_count
  omega

theorem state_after_succ (env : Nat → Sys) (s : ProcState) (n : Nat) :
    (state_after env s (n + 1)).first = false ∧
      (state_after env s (n + 1)).xsubi = rand48_next^[n + 1] (seed_start (env 0) s) := by
  induction n with
  | zero =>
    show (should_abort (env 0) s).2.1.first = false ∧
      (should_abort (env 0) s).2.1.xsubi = rand48_next (seed_start (env 0) s)
    unfold seed_start
    cases h : s.first
    · rw [should_abort_seeded _ s h]; exact ⟨h, rfl⟩
    · rw [should_abort_unseeded _ s h]; exact ⟨rfl, rfl⟩
  | succ n ih =>
    show (should_abort (env (n + 1)) (state_after env s (n + 1))).2.1.first = false ∧
      (should_abort (env (n + 1)) (state_after env s (n + 1))).2.1.xsubi = _
    rw [should_abort_seeded _ _ ih.1, Function.iterate_succ_apply', ← ih.2]
    exact ⟨ih.1, rfl⟩

/-- The `n`-th fault decision of a process compares the `n + 1`-st value of the generator
sequence that starts at `seed_start`. -/
theorem decision_eq (env : Nat → Sys) (s : ProcState) (n : Nat) :
    decision env s n =
      (drand48_value (rand48_next^[n + 1] (seed_start (env 0) s))).blt crash_threshold := by
  cases n with
  | zero =>
    show (should_abort (env 0) s).1 = _
    unfold seed_start
    cases h : s.first
    · rw [should_abort_seeded _ s h]; rfl
    · rw [should_abort_unseeded _ s h]; rfl
  | succ n =>
    obtain ⟨h1, h2⟩ := state_after_succ env s n
    show (should_abort (env (n + 1)) (state_after env s (n + 1))).1 = _
    rw [should_abort_seeded _ _ h1, Function.iterate_succ_apply' rand48_next (n + 1), ← h2]

theorem threshold_filter_card :
    ((Finset.range (2 ^ 48)).filter (fun y => y < threshold_count)).card = threshold_count := by
  have h : (Finset.range (2 ^ 48)).filter (fun y => y < threshold_count)
      = Finset.range threshold_count := by
    ext y
    simp only [Finset.mem_filter, Finset.mem_range]
    unfold threshold_count
    omega
  rw [h, Finset.card_range]

theorem abortCount_eq (env : Nat → Sys) (s : ProcState) : abortCount env s = threshold_count := by
  unfold abortCount
  have h : (Finset.range (2 ^ 48)).filter (fun n => decision env s n = true) =
      (Finset.range (2 ^ 48)).filter
        (fun n => rand48_next^[n] (rand48_next (seed_start (env 0) s)) < threshold_count) := by
    apply Finset.filter_congr
    intro n _
    rw [decision_eq, blt_crash_threshold_iff, Function.iterate_succ_apply]
  rw [h, rand48_orbit_count _ (rand48_next_lt _) (fun y => y < threshold_count),
    threshold_filter_card]

theorem abortStates_eq (sys : Sys) (orig : Nat) : abortStates sys orig = threshold_count := by
  unfold abortStates
  have h : (Finset.range (2 ^ 48)).filter
      (fun x => (should_abort sys { first := false, orig := orig, xsubi := x }).1 = true) =
      (Finset.range (2 ^ 48)).filter (fun x => rand48_next x < threshold_count) := by
    apply Finset.filter_congr
    intro x _
    rw [should_abort_seeded _ _ rfl]
    exact blt_crash_threshold_iff (rand48_next x)
  rw [h, ← rand48_orbit_count 0 (by norm_num) (fun x => rand48_next x < threshold_count)]
  have h2 : (Finset.range (2 ^ 48)).filter
      (fun n => rand48_next (rand48_next^[n] 0) < threshold_count) =
      (Finset.range (2 ^ 48)).filter
        (fun n => rand48_next^[n] (rand48_next 0) < threshold_count) := by
    apply Finset.filter_congr
    intro n _
    rw [← Function.iterate_succ_apply' rand48_next n, Function.iterate_succ_apply]
  rw [h2, rand48_orbit_count _ (rand48_next_lt _) (fun y => y < threshold_count),
    threshold_filter_card]

theorem socket_aborted_iff (sys : Sys) (d t p : Int) (s : ProcState) :
    (socket sys d t p s).1 = Outcome.aborted ↔ (should_abort sys s).1 = true := by
  constructor
  · intro h
    cases hdec : (should_abort sys s).1
    · exfalso
      rcases socket_cases sys d t p s with h1 | ⟨_, h1⟩ | ⟨_, _, h1⟩ | ⟨_, h1⟩
      · have := socket_reachedPassThrough sys d t p s
        rw [h1] at this
        simp [reachedPassThrough, hdec] at this
      · rw [h1] at h; cases h
      · rw [h1] at h; cases h
      · rw [h1] at h; cases h
    · rfl
  · intro h
    rw [socket_of_abort sys d t p s h]

theorem socketAbortStates_eq (sys : Sys) (d t p : Int) (orig : Nat) :
    socketAbortStates sys d t p orig = abortStates sys orig := by
  unfold socketAbortStates abortStates
  refine congrArg Finset.card (Finset.filter_congr ?_)
  intro x _
  exact socket_aborted_iff sys d t p _

/-- C8. Long-run abort rate. For every process (seeded or not, in any environment) exactly
`91479367430964` of its first `2^48` fault decisions are true; the same number of the
`2^48` generator states make `should_abort` return true, and these are the states from
which `socket` aborts. The fraction `91479367430964 / 2^48` lies within `0.01` of `0.325`. -/
theorem abort_rate (env : Nat → Sys) (s : ProcState) (sys : Sys) (domain type_ protocol : Int)
    (orig : Nat) :
    abortCount env s = 91479367430964 ∧
      abortStates sys orig = 91479367430964 ∧
      socketAbortStates sys domain type_ protocol orig = 91479367430964 ∧
      |(abortCount env s : ℚ) / 2 ^ 48 - 325 / 1000| ≤ 1 / 100 ∧
      |(abortStates sys orig : ℚ) / 2 ^ 48 - 325 / 1000| ≤ 1 / 100 ∧
      |(socketAbortStates sys domain type_ protocol orig : ℚ) / 2 ^ 48 - 325 / 1000|
        ≤ 1 / 100 := by
  have h1 : abortCount env s = 91479367430964 := abortCount_eq env s
  have h2 : abortStates sys orig = 91479367430964 := abortStates_eq sys orig
  have h3 : socketAbortStates sys domain type_ protocol orig = 91479367430964 := by
    rw [socketAbortStates_eq]; exact h2
  have h4 : |((91479367430964 : Nat) : ℚ) / 2 ^ 48 - 325 / 1000| ≤ 1 / 100 := by
    rw [abs_le]
    constructor <;> norm_num
  refine ⟨h1, h2, h3, ?_, ?_, ?_⟩
  · rw [h1]; exact h4
  · rw [h2]; exact h4
  · rw [h3]; exact h4


/-! ## Seeding across processes -/

theorem xor_mod_two_pow (a b n : Nat) : (a ^^^ b) % 2 ^ n = (a % 2 ^ n) ^^^ (b % 2 ^ n) := by
  apply Nat.eq_of_testBit_eq
  intro i
  rw [Nat.testBit_mod_two_pow, Nat.testBit_xor, Nat.testBit_xor, Nat.testBit_mod_two_pow,
    Nat.testBit_mod_two_pow]
  by_cases h : i < n <;> simp [h]

theorem srand48_eq (v : Nat) : srand48 v = (v % 2 ^ 32) * 2 ^ 16 + 0x330E := by
  unfold srand48
  rw [Nat.shiftLeft_eq, Nat.mul_comm, ← Nat.mul_add_lt_is_or (by norm_num) (v % 2 ^ 32)]

theorem srand48_lt (v : Nat) : srand48 v < 2 ^ 48 := by
  rw [srand48_eq]
  omega

theorem int_to_long_mod (x : Nat) (hx : x < 2 ^ 32) : int_to_long x % 2 ^ 32 = x := by
  unfold int_to_long
  split <;> omega

theorem seed_arg_mod (t p : Nat) : seed_arg t p % 2 ^ 32 = (t % 2 ^ 32) ^^^ shl16_int p := by
  unfold seed_arg
  have h : shl16_int p < 2 ^ 32 := Nat.mod_lt _ (by norm_num)
  rw [xor_mod_two_pow, int_to_long_mod _ h]
  congr 1
  omega

/-- Two processes seeding in the same second install the same generator state exactly when
their pids agree modulo `2^16`. -/
theorem srand48_seed_arg_eq_iff (t p q : Nat) :
    srand48 (seed_arg t p) = srand48 (seed_arg t q) ↔ p % 2 ^ 16 = q % 2 ^ 16 := by
  rw [srand48_eq, srand48_eq, seed_arg_mod, seed_arg_mod]
  constructor
  · intro h
    have h1 : (t % 2 ^ 32) ^^^ shl16_int p = (t % 2 ^ 32) ^^^ shl16_int q := by omega
    have h2 := Nat.xor_right_injective h1
    unfold shl16_int at h2
    omega
  · intro h
    have h2 : shl16_int p = shl16_int q := by
      unfold shl16_int
      omega
    rw [h2]

/-- Two generator sequences that start at different states give different sequences of
fault decisions. -/
theorem decisions_diverge (x y : Nat) (hx : x < 2 ^ 48) (hy : y < 2 ^ 48) (hne : x ≠ y) :
    ∃ n, (drand48_value (rand48_next^[n + 1] x)).blt crash_threshold ≠
      (drand48_value (rand48_next^[n + 1] y)).blt crash_threshold := by
  by_contra hcon
  have hall : ∀ n, (drand48_value (rand48_next^[n + 1] x)).blt crash_threshold =
      (drand48_value (rand48_next^[n + 1] y)).blt crash_threshold := by
    intro n
    by_contra h
    exact hcon ⟨n, h⟩
  -- `y` lies `d` steps after `x` on the cycle
  obtain ⟨d, hd, hdy⟩ := rand48_orbit_surjective x y hx hy
  have hd0 : d ≠ 0 := by
    rintro rfl
    exact hne hdy
  -- so the decisions along the orbit of `rand48_next x` repeat with period `d`
  have hper : ∀ k n, (drand48_value (rand48_next^[n] (rand48_next x))).blt crash_threshold =
      (drand48_value (rand48_next^[k * d + n] (rand48_next x))).blt crash_threshold := by
    intro k
    induction k with
    | zero => intro n; rw [Nat.zero_mul, Nat.zero_add]
    | succ k ih =>
      intro n
      rw [ih n]
      have h1 := hall (k * d + n)
      rw [Function.iterate_succ_apply, Function.iterate_succ_apply, ← hdy,
        ← Function.iterate_succ_apply' rand48_next d x, Function.iterate_succ_apply,
        ← Function.iterate_add_apply] at h1
      rw [h1]
      congr 3
      rw [Nat.succ_mul]
      omega
  -- write `d = 2^j * r` with `r` odd; then `2^(47-j) * d` is an odd multiple of `2^47`
  obtain ⟨j, r, hr, hjr⟩ := Nat.exists_eq_two_pow_mul_odd hd0
  have hj : j ≤ 47 := by
    by_contra h
    have h1 : 2 ^ 48 ≤ 2 ^ j := Nat.pow_le_pow_right (by norm_num) (by omega)
    have h2 : 2 ^ j ≤ d := by
      rw [hjr]
      exact Nat.le_mul_of_pos_right _ (Nat.pos_of_ne_zero (fun h0 => by
        rw [h0] at hr; exact absurd hr (by decide)))
    omega
  have hmul : 2 ^ (47 - j) * d = 2 ^ 47 * r := by
    rw [hjr, ← Nat.mul_assoc, ← pow_add]
    congr 2
    omega
  have hr2 : r % 2 = 1 := Nat.odd_iff.1 hr
  -- the state `0` is reached from `rand48_next x`
  obtain ⟨n0, _, hn0⟩ := rand48_orbit_surjective (rand48_next x) 0 (rand48_next_lt x)
    (by norm_num)
  have h := hper (2 ^ (47 - j)) n0
  rw [hmul, Function.iterate_add_apply, hn0, rand48_next_iterate_half_odd r hr2] at h
  revert h
  decide


theorem init_xsubi (sys : Sys) (s : ProcState) :
    (init sys s).1.xsubi = srand48 (seed_arg sys.time sys.pid) := rfl

theorem seed_start_of_first (sys : Sys) (s : ProcState) (h : s.first = true) :
    seed_start sys s = srand48 (seed_arg sys.time sys.pid) := by
  unfold seed_start
  rw [if_pos h]

/-- C4 (as amended). Seed divergence across forks. Two processes that take their first
fault decision in the same wall-clock second are seeded by `init` with the same generator
state exactly when their pids agree modulo `2^16` (the shift `pid << 16` is computed in
32-bit `int` arithmetic and `srand48` keeps 32 bits of its argument). When the pids differ
modulo `2^16`, in particular for two distinct pids below `65536`, the installed states
differ and the two sequences of fault decisions differ at some call; when the pids agree
modulo `2^16` the two sequences of fault decisions are identical. -/
theorem seed_divergence (envP envQ : Nat → Sys) (sP sQ : ProcState)
    (hP : sP.first = true) (hQ : sQ.first = true)
    (ht : (envP 0).time = (envQ 0).time) :
    ((init (envP 0) sP).1.xsubi = (init (envQ 0) sQ).1.xsubi ↔
        (envP 0).pid % 2 ^ 16 = (envQ 0).pid % 2 ^ 16) ∧
      ((envP 0).pid % 2 ^ 16 ≠ (envQ 0).pid % 2 ^ 16 →
        ∃ n, decision envP sP n ≠ decision envQ sQ n) ∧
      ((envP 0).pid ≠ (envQ 0).pid → (envP 0).pid < 2 ^ 16 → (envQ 0).pid < 2 ^ 16 →
        (init (envP 0) sP).1.xsubi ≠ (init (envQ 0) sQ).1.xsubi ∧
          ∃ n, decision envP sP n ≠ decision envQ sQ n) ∧
      ((envP 0).pid % 2 ^ 16 = (envQ 0).pid % 2 ^ 16 →
        ∀ n, decision envP sP n = decision envQ sQ n) := by
  have hiff : (init (envP 0) sP).1.xsubi = (init (envQ 0) sQ).1.xsubi ↔
      (envP 0).pid % 2 ^ 16 = (envQ 0).pid % 2 ^ 16 := by
    rw [init_xsubi, init_xsubi, ht]
    exact srand48_seed_arg_eq_iff _ _ _
  have hdiv : (envP 0).pid % 2 ^ 16 ≠ (envQ 0).pid % 2 ^ 16 →
      ∃ n, decision envP sP n ≠ decision envQ sQ n := by
    intro hpid
    have hne : srand48 (seed_arg (envP 0).time (envP 0).pid) ≠
        srand48 (seed_arg (envQ 0).time (envQ 0).pid) := by
      rw [ht]
      exact fun h => hpid ((srand48_seed_arg_eq_iff _ _ _).1 h)
    obtain ⟨n, hn⟩ := decisions_diverge _ _ (srand48_lt _) (srand48_lt _) hne
    refine ⟨n, ?_⟩
    rw [decision_eq, decision_eq, seed_start_of_first _ _ hP, seed_start_of_first _ _ hQ]
    exact hn
  refine ⟨hiff, hdiv, ?_, ?_⟩
  · intro hne hp hq
    have hmod : (envP 0).pid % 2 ^ 16 ≠ (envQ 0).pid % 2 ^ 16 := by
      rw [Nat.mod_eq_of_lt hp, Nat.mod_eq_of_lt hq]
      exact hne
    exact ⟨fun h => hmod (hiff.1 h), hdiv hmod⟩
  · intro hmod n
    have h := hiff.2 hmod
    rw [init_xsubi, init_xsubi] at h
    rw [decision_eq, decision_eq, seed_start_of_first _ _ hP, seed_start_of_first _ _ hQ, h]

theorem seed_divergence_witness :
    ∃ n, decision (fun _ => sysAt 1700000000 4242) ProcState.start n ≠
      decision (fun _ => sysAt 1700000000 4243) ProcState.start n :=
  (seed_divergence (fun _ => sysAt 1700000000 4242) (fun _ => sysAt 1700000000 4243)
    ProcState.start ProcState.start rfl rfl rfl).2.1 (by decide)

/-- Counterexample to C4 as stated: in the same second the distinct pids `1` and `65537`
are seeded with the same generator state, and the two processes draw the same fault
decision at every call. -/
theorem seed_divergence_counterexample :
    (sysAt 1700000000 1).pid ≠ (sysAt 1700000000 65537).pid ∧
      (init (sysAt 1700000000 1) ProcState.start).1.xsubi =
        (init (sysAt 1700000000 65537) ProcState.start).1.xsubi ∧
      ∀ n, decision (fun _ => sysAt 1700000000 1) ProcState.start n =
        decision (fun _ => sysAt 1700000000 65537) ProcState.start n := by
  refine ⟨by decide, by decide, fun n => ?_⟩
  rw [decision_eq, decision_eq]
  rfl


/-! ## Pass-through transparency -/

theorem step_orig (sys : Sys) (c : Call) (s : ProcState) :
    (step sys c s).2.1.orig = s.orig ∨ (s.orig = 0 ∧ (step sys c s).2.1.orig = sys.dlsym) := by
  cases c with
  | socket d t p =>
    rw [step_socket]
    rcases socket_cases sys d t p s with h | ⟨_, h⟩ | ⟨ho, _, h⟩ | ⟨ho, h⟩ <;> rw [h]
    · exact Or.inl (should_abort_orig sys s)
    · exact Or.inl (should_abort_orig sys s)
    · exact Or.inr ⟨ho, rfl⟩
    · exact Or.inr ⟨ho, rfl⟩
  | recv fd buf len flags => exact Or.inl rfl
  | gethostbyname name => exact Or.inl rfl

/-- In a run during which `dlsym` always answers the address `D`, the cache is empty or
holds `D`. -/
theorem run_orig_invariant (D : Nat) (cs : List (Sys × Call)) (s : ProcState)
    (hcs : ∀ c ∈ cs, c.1.dlsym = D) (hs : s.orig = 0 ∨ s.orig = D) :
    (run cs s).final.orig = 0 ∨ (run cs s).final.orig = D := by
  induction cs generalizing s with
  | nil => exact hs
  | cons a rest ih =>
    obtain ⟨sys, c⟩ := a
    have hD : sys.dlsym = D := hcs (sys, c) (List.mem_cons_self _ _)
    have hstep : (step sys c s).2.1.orig = 0 ∨ (step sys c s).2.1.orig = D := by
      rcases step_orig sys c s with h | ⟨_, h⟩
      · rw [h]; exact hs
      · rw [h, hD]; exact Or.inr rfl
    rw [run_cons]
    split
    · exact ih _ (fun c hc => hcs c (List.mem_cons_of_mem _ hc)) hstep
    · exact hstep

/-- C1. Pass-through transparency of `socket`: when the fault decision drawn by the call is
false, the real implementation is resolvable (`dlsym` answers a non-null address) and the
cache is empty or holds that address, `socket domain type protocol` returns exactly what the
real implementation returns for `domain`, `type`, `protocol`, and the one call through a
function pointer it makes passes these three arguments in this order to that address. The
condition on the cache holds in every state a process reaches from its start while `dlsym`
keeps answering that address. -/
theorem socket_pass_through (sys : Sys) (domain type_ protocol : Int) (s : ProcState)
    (hdec : (should_abort sys s).1 = false) (hres : sys.dlsym ≠ 0)
    (hcache : s.orig = 0 ∨ s.orig = sys.dlsym) :
    (socket sys domain type_ protocol s).1
        = Outcome.returned (sys.invoke sys.dlsym domain type_ protocol) ∧
      (socket sys domain type_ protocol s).2.2.filter Event.isCall
        = [Event.call sys.dlsym domain type_ protocol] ∧
      ∀ cs : List (Sys × Call), (∀ c ∈ cs, c.1.dlsym = sys.dlsym) →
        (run cs ProcState.start).final.orig = 0 ∨
          (run cs ProcState.start).final.orig = sys.dlsym := by
  have hf : (should_abort sys s).2.2.filter Event.isCall = [] := by
    rw [List.filter_eq_nil_iff]
    intro e he
    rw [(should_abort_events_isCall sys s e he).1]
    exact Bool.false_ne_true
  refine ⟨?_, ?_, fun cs hcs => run_orig_invariant sys.dlsym cs _ hcs (Or.inl rfl)⟩
  · rcases hcache with h0 | h1
    · rw [socket_of_resolved sys domain type_ protocol s hdec h0 hres]
    · have hne : s.orig ≠ 0 := by rw [h1]; exact hres
      rw [socket_of_cached sys domain type_ protocol s hdec hne, h1]
  · rcases hcache with h0 | h1
    · rw [socket_of_resolved sys domain type_ protocol s hdec h0 hres, List.filter_append, hf]
      rfl
    · have hne : s.orig ≠ 0 := by rw [h1]; exact hres
      rw [socket_of_cached sys domain type_ protocol s hdec hne, h1, List.filter_append, hf]
      rfl

theorem socket_pass_through_witness :
    (socket sampleSys 2 1 0 ProcState.start).1 = Outcome.returned (sampleSys.invoke 7 2 1 0) ∧
      (socket sampleSys 2 1 0 ProcState.start).2.2.filter Event.isCall
        = [Event.call 7 2 1 0] :=
  ⟨(socket_pass_through sampleSys 2 1 0 ProcState.start (by decide) (by decide)
      (Or.inl (by decide))).1,
   (socket_pass_through sampleSys 2 1 0 ProcState.start (by decide) (by decide)
      (Or.inl (by decide))).2.1⟩

end FaultInjector
